import Mathlib

/-!
Shallow embedding of `scripts/fetch-data.js` (dollar-debasement repository).

The repository holds two near-identical revisions of the script in one file:
the GoldAPI / CoinCap revision (first document) and the metals.live / Kraken
revision (second document).  The aggregation pipeline (`main`), the FRED /
Alpha Vantage / Frankfurter adapters and the HTTP wrapper `get` are embedded
from the first revision, whose line numbers the claims cite; `krakenBtcSpot`
is embedded from the second revision, which one claim cites as well.

Modelling conventions, used throughout:
* a JavaScript value that may be `null`/`undefined` is an `Option`;
* a JavaScript number that may be `NaN` is a `JsNum` (`nan` or a rational);
  the script only ever produces `NaN` through `parseFloat` and through
  arithmetic on `undefined`, and no claim depends on floating-point
  rounding, so finite doubles are idealised as rationals;
* the floating-point value of the DXY formula is carried symbolically
  (`DExpr`), because the claims about it concern only absence and NaN-ness;
  `NaN`-propagation of JavaScript arithmetic is modelled exactly for the
  operations the formula uses on the inputs the theorems mention;
* JavaScript string comparison (`<` on code units) is modelled by the
  executable lexicographic order `strLtB` on `String.data`; the two agree on
  every string appearing in the script (ASCII dates);
* `JSON.stringify` drops object entries whose value is `undefined` and keeps
  entries whose value is `null`; snapshot fields are therefore modelled by
  `JField` with distinct `undef` and `jnull` states.
-/

namespace FetchData

/-! ### JavaScript string comparison -/

/-- Lexicographic comparison of character lists by code point, mirroring the
JavaScript `<` operator on strings (which compares UTF-16 code units; the
script only compares ASCII date strings, where the two coincide). -/
def strDataLtB : List Char → List Char → Bool
  | [], [] => false
  | [], _ :: _ => true
  | _ :: _, [] => false
  | a :: as, b :: bs =>
    if a.toNat < b.toNat then true
    else if b.toNat < a.toNat then false
    else strDataLtB as bs

/-- JavaScript `a < b` on strings. -/
def strLtB (a b : String) : Bool := strDataLtB a.data b.data

/-- Propositional form of `strLtB`. -/
def strLt (a b : String) : Prop := strLtB a b = true

instance (a b : String) : Decidable (strLt a b) := by
  unfold strLt; infer_instance

theorem strDataLtB_irrefl : ∀ l : List Char, strDataLtB l l = false
  | [] => rfl
  | a :: as => by simp [strDataLtB, strDataLtB_irrefl as]

theorem strDataLtB_trans : ∀ {a b c : List Char},
    strDataLtB a b = true → strDataLtB b c = true → strDataLtB a c = true
  | [], [], _, hab, _ => by cases hab
  | [], _ :: _, [], _, hbc => by cases hbc
  | [], _ :: _, _ :: _, _, _ => rfl
  | _ :: _, [], _, hab, _ => by cases hab
  | _ :: _, _ :: _, [], _, hbc => by cases hbc
  | a :: as, b :: bs, c :: cs, hab, hbc => by
    simp only [strDataLtB] at hab hbc ⊢
    by_cases h1 : a.toNat < b.toNat <;> by_cases h2 : b.toNat < c.toNat
    · have h3 : a.toNat < c.toNat := Nat.lt_trans h1 h2
      simp [h3]
    · by_cases h3 : c.toNat < b.toNat
      · simp [h2, h3] at hbc
      · have he : b.toNat = c.toNat :=
          Nat.le_antisymm (Nat.not_lt.mp h3) (Nat.not_lt.mp h2)
        have h4 : a.toNat < c.toNat := he ▸ h1
        simp [h4]
    · by_cases h3 : b.toNat < a.toNat
      · simp [h1, h3] at hab
      · have he : a.toNat = b.toNat :=
          Nat.le_antisymm (Nat.not_lt.mp h3) (Nat.not_lt.mp h1)
        have h4 : a.toNat < c.toNat := he ▸ h2
        simp [h4]
    · by_cases h3 : b.toNat < a.toNat
      · simp [h1, h3] at hab
      · by_cases h4 : c.toNat < b.toNat
        · simp [h2, h4] at hbc
        · have h5 : ¬ a.toNat < c.toNat := by
            have := Nat.not_lt.mp h3
            have := Nat.not_lt.mp h4
            omega
          have h6 : ¬ c.toNat < a.toNat := by
            have := Nat.not_lt.mp h1
            have := Nat.not_lt.mp h2
            omega
          simp only [h1, h3, if_neg, ite_false] at hab
          simp only [h2, h4, if_neg, ite_false] at hbc
          simp only [h5, h6, if_neg, ite_false]
          exact strDataLtB_trans hab hbc

theorem strDataLtB_of_ne : ∀ {a b : List Char}, a ≠ b →
    strDataLtB a b = true ∨ strDataLtB b a = true
  | [], [], h => absurd rfl h
  | [], _ :: _, _ => Or.inl rfl
  | _ :: _, [], _ => Or.inr rfl
  | a :: as, b :: bs, h => by
    rcases Nat.lt_trichotomy a.toNat b.toNat with h1 | h1 | h1
    · exact Or.inl (by simp [strDataLtB, h1])
    · have hab : a = b :=
        Char.eq_of_val_eq (UInt32.eq_of_val_eq (Fin.eq_of_val_eq h1))
      subst hab
      have hne : as ≠ bs := fun hh => h (by rw [hh])
      rcases strDataLtB_of_ne hne with h2 | h2
      · exact Or.inl (by simp [strDataLtB, h2])
      · exact Or.inr (by simp [strDataLtB, h2])
    · exact Or.inr (by simp [strDataLtB, h1])

theorem strLt_trans {a b c : String} (h1 : strLt a b) (h2 : strLt b c) :
    strLt a c := strDataLtB_trans h1 h2

theorem strLt_irrefl (a : String) : ¬ strLt a a := by
  simp [strLt, strLtB, strDataLtB_irrefl]

theorem strLt_of_ne_of_not_lt {a b : String} (hne : a ≠ b)
    (h : ¬ strLt a b) : strLt b a := by
  have hdata : a.data ≠ b.data := fun hd => hne (by
    cases a; cases b; simp only at hd; rw [hd])
  rcases strDataLtB_of_ne hdata with h1 | h1
  · exact absurd h1 h
  · exact h1

theorem ne_of_strLt {a b : String} (h : strLt a b) : a ≠ b := by
  rintro rfl; exact strLt_irrefl a h

/-- `s.slice(0, n)` on an ASCII string: the first `n` characters. -/
def strTake (n : ℕ) (s : String) : String := String.mk (s.data.take n)

theorem strTake_strTake (s : String) : strTake 7 (strTake 10 s) = strTake 7 s := by
  simp [strTake, List.take_take]

/-! ### JavaScript numbers and `parseFloat` -/

/-- A JavaScript number that may be `NaN`; finite doubles are idealised as
rationals (no claim depends on binary rounding). -/
inductive JsNum where
  | nan : JsNum
  | num (q : ℚ) : JsNum
deriving DecidableEq

/-- JavaScript `isNaN`. -/
def JsNum.isNaN : JsNum → Bool
  | .nan => true
  | .num _ => false

/-- JavaScript `x > 0` (false for `NaN`). -/
def JsNum.gt0 : JsNum → Bool
  | .nan => false
  | .num q => decide (0 < q)

/-- Numeric value of a digit list (most significant first). -/
def digitsToNat (ds : List Char) : ℕ :=
  ds.foldl (fun n c => 10 * n + (c.toNat - 48)) 0

/-- JavaScript `parseFloat` restricted to the inputs the script meets:
an optional sign, then the longest run of digits, then optionally a dot and
a second digit run; trailing garbage is ignored, and if no digit was read
the result is `NaN`.  (Exponent notation, `Infinity` and leading whitespace
do not occur in the data the theorems mention and are not modelled.) -/
def jsParseFloat (s : String) : JsNum :=
  let cs := s.data
  let signAndRest : ℤ × List Char :=
    match cs with
    | '-' :: rest => (-1, rest)
    | '+' :: rest => (1, rest)
    | _ => (1, cs)
  let intDs := signAndRest.2.takeWhile Char.isDigit
  let rest := signAndRest.2.dropWhile Char.isDigit
  let fracDs : List Char :=
    match rest with
    | '.' :: r2 => r2.takeWhile Char.isDigit
    | _ => []
  if intDs.isEmpty && fracDs.isEmpty then .nan
  else .num (mkRat
    (signAndRest.1 *
      ((digitsToNat intDs : ℤ) * 10 ^ fracDs.length + (digitsToNat fracDs : ℤ)))
    (10 ^ fracDs.length))

/-- `parseFloat` applied to a possibly-`undefined` string
(`parseFloat(undefined)` is `NaN`). -/
def jsParseFloatOpt : Option String → JsNum
  | none => .nan
  | some s => jsParseFloat s

/-! ### Time points and sorting -/

/-- A `{ date, value }` point as produced by the series adapters. -/
structure Pt where
  date : String
  value : JsNum
deriving DecidableEq

/-- Date order on points. -/
def dateLT (a b : Pt) : Prop := strLt a.date b.date

instance : DecidableRel dateLT := fun a b =>
  inferInstanceAs (Decidable (strLt a.date b.date))

/-- Model of `arr.sort((a, b) => a.date < b.date ? -1 : 1)`: a stable sort
driven by a comparator that never reports a tie.  `orderedInsert` places an
element after every element it is not strictly below, exactly as the
comparator (which answers `1` on equal dates) directs; on date-distinct
inputs this is the unique strictly ascending reordering, which is all any
claim uses. -/
def sortByDate (l : List Pt) : List Pt := l.insertionSort dateLT

/-- `arr.slice(-n)`: the last `n` elements. -/
def sliceLast (n : ℕ) (l : List α) : List α := l.drop (l.length - n)

theorem sliceLast_sublist (n : ℕ) (l : List α) : (sliceLast n l).Sublist l :=
  List.drop_sublist _ _

theorem sortByDate_perm (l : List Pt) : (sortByDate l).Perm l :=
  List.perm_insertionSort _ _

theorem sorted_orderedInsert_of_ne (x : Pt) :
    ∀ l : List Pt, (∀ y ∈ l, x.date ≠ y.date) → l.Pairwise dateLT →
      (List.orderedInsert dateLT x l).Pairwise dateLT
  | [], _, _ => List.pairwise_singleton _ _
  | y :: ys, hne, hs => by
    rw [List.orderedInsert]
    split
    · rename_i hxy
      refine List.Pairwise.cons ?_ hs
      intro z hz
      rcases List.mem_cons.mp hz with rfl | hz
      · exact hxy
      · exact strLt_trans hxy ((List.pairwise_cons.mp hs).1 z hz)
    · rename_i hxy
      have hyx : dateLT y x :=
        strLt_of_ne_of_not_lt (hne y (List.mem_cons_self y ys)) hxy
      refine List.Pairwise.cons ?_
        (sorted_orderedInsert_of_ne x ys
          (fun z hz => hne z (List.mem_cons_of_mem _ hz))
          (List.pairwise_cons.mp hs).2)
      intro z hz
      rcases (List.mem_orderedInsert dateLT).mp hz with rfl | hz
      · exact hyx
      · exact (List.pairwise_cons.mp hs).1 z hz

/-- On an input whose dates are pairwise distinct, the modelled JavaScript
sort yields a strictly date-ascending list. -/
theorem sorted_sortByDate_of_nodup :
    ∀ l : List Pt, (l.map Pt.date).Nodup → (sortByDate l).Pairwise dateLT
  | [], _ => List.Pairwise.nil
  | a :: l, hnd => by
    have hnd' := hnd
    rw [List.map_cons, List.nodup_cons] at hnd'
    have hrec := sorted_sortByDate_of_nodup l hnd'.2
    have : sortByDate (a :: l) = List.orderedInsert dateLT a (sortByDate l) := rfl
    rw [this]
    refine sorted_orderedInsert_of_ne a (sortByDate l) ?_ hrec
    intro y hy hda
    exact hnd'.1 (by
      rw [hda]
      exact List.mem_map_of_mem Pt.date ((sortByDate_perm l).mem_iff.mp hy))

/-- In a `Pairwise r` list, every element is the last one or related to it. -/
theorem pairwise_getLast_max {α : Type} {r : α → α → Prop} :
    ∀ {l : List α} {y : α}, l.Pairwise r → l.getLast? = some y →
      ∀ x ∈ l, x = y ∨ r x y
  | [], _, _, hy, _ => by cases hy
  | [a], _, _, hy, x => by
    intro hx
    rcases List.mem_singleton.mp hx with rfl
    simp only [List.getLast?_singleton, Option.some.injEq] at hy
    exact Or.inl hy
  | a :: b :: t, y, hp, hy, x => by
    intro hx
    rw [List.getLast?_cons_cons] at hy
    have hmem : y ∈ b :: t := by
      rcases List.getLast?_eq_some_iff.mp hy with ⟨l2, hl2⟩
      rw [hl2]
      exact List.mem_append.mpr (Or.inr (List.mem_singleton_self y))
    rcases List.mem_cons.mp hx with rfl | hx
    · exact Or.inr ((List.pairwise_cons.mp hp).1 y hmem)
    · exact pairwise_getLast_max (List.pairwise_cons.mp hp).2 hy x hx

/-! ### HTTP fetch wrapper `get` -/

/-- A decoded JSON body, with the three soft-failure marker fields the
wrapper probes (`Note`, `Information`, `Error Message`); a `true` marker
models a truthy field on the JavaScript side. -/
structure Body (α : Type) where
  note : Bool
  information : Bool
  errorMessage : Bool
  payload : α
deriving DecidableEq

/-- The possible outcomes of the `fetch` call inside `get`:
the promise rejects (connection failure), the 20-second `AbortSignal`
timeout fires (also a rejection), or a response arrives with a status code
and either a well-formed JSON body or a body on which `r.json()` rejects. -/
inductive FetchCase (α : Type) where
  | netError : FetchCase α
  | timedOut : FetchCase α
  | httpResponse (status : ℕ) (body : Option (Body α)) : FetchCase α
deriving DecidableEq

/-- `Response.ok`: status in the 2xx range. -/
def statusOk (s : ℕ) : Bool := decide (200 ≤ s) && decide (s ≤ 299)

/-- `async function get(url, label, headers)`: every rejection is caught and
converted to `null`; a non-2xx status throws into the same catch; a 200-range
body carrying a rate-limit note or an error envelope is also converted to
`null`.  The function is total: no error escapes to the caller. -/
def get {α : Type} : FetchCase α → Option (Body α)
  | .netError => none
  | .timedOut => none
  | .httpResponse s b =>
    if !statusOk s then none
    else
      match b with
      | none => none
      | some j =>
        if j.note || j.information then none
        else if j.errorMessage then none
        else some j

/-! ### GoldAPI spot adapter -/

/-- The GoldAPI response shape: an optional numeric `price` field. -/
structure GoldResp where
  price : Option ℚ
deriving DecidableEq

/-- `goldApiSpot(symbol)`: `return j?.price ?? null` — the price field is
passed through with no validation whenever it is present. -/
def goldApiSpot (j : Option GoldResp) : Option ℚ :=
  j.bind GoldResp.price

/-! ### Alpha Vantage monthly-history adapter -/

/-- One row of the Alpha Vantage `data` array. -/
structure AVRow where
  date : String
  value : String
deriving DecidableEq

/-- The Alpha Vantage response: an optional `data` array. -/
structure AVResp where
  data : Option (List AVRow)
deriving DecidableEq

/-- `avCommodity(fn, label)`: maps rows to points, drops non-numeric and
non-positive values, then sorts ascending by date-string comparison. -/
def avCommodity (j : Option AVResp) : Option (List Pt) :=
  match j with
  | none => none
  | some r =>
    match r.data with
    | none => none
    | some rows =>
      some (sortByDate
        ((rows.map (fun rw => ({ date := rw.date, value := jsParseFloat rw.value } : Pt))).filter
          (fun p => !p.value.isNaN && p.value.gt0)))

/-! ### FRED economic-series adapter -/

/-- One FRED observation: a date and a value string (the string `"."` is the
missing-observation sentinel). -/
structure FredObs where
  date : String
  value : String
deriving DecidableEq

/-- The FRED response: an optional `observations` array. -/
structure FredResp where
  observations : Option (List FredObs)
deriving DecidableEq

/-- `fredSeries(series, limit)`: drops `"."` sentinels, parses the remaining
values, and reverses the provider's descending order to ascending. -/
def fredSeries (j : Option FredResp) : Option (List Pt) :=
  match j with
  | none => none
  | some r =>
    match r.observations with
    | none => none
    | some obs =>
      some (((obs.filter (fun o => o.value != ".")).map
        (fun o => ({ date := o.date, value := jsParseFloat o.value } : Pt))).reverse)

/-! ### CoinCap BTC history adapter (daily-to-monthly downsampler) -/

/-- One CoinCap history point: an ISO date-time string and a price string. -/
structure CoinCapPt where
  date : String
  priceUsd : String
deriving DecidableEq

/-- The CoinCap response: an optional `data` array. -/
structure CoinCapResp where
  data : Option (List CoinCapPt)
deriving DecidableEq

/-- `pt.date.slice(0, 7)`: the `"YYYY-MM"` month key. -/
def moKey (p : CoinCapPt) : String := strTake 7 p.date

/-- The point stored for a month: date truncated to day precision and the
parsed price (`{ date: pt.date.slice(0, 10), value: parseFloat(pt.priceUsd) }`). -/
def convPt (p : CoinCapPt) : Pt :=
  { date := strTake 10 p.date, value := jsParseFloat p.priceUsd }

/-- Assignment `monthly[mo] = v` on a JavaScript object modelled as an
insertion-ordered association list: an existing key keeps its position and
gets the new value, a fresh key is appended. -/
def upsert (k : String) (v : Pt) : List (String × Pt) → List (String × Pt)
  | [] => [(k, v)]
  | (k1, w) :: rest =>
    if k1 = k then (k1, v) :: rest else (k1, w) :: upsert k v rest

/-- The `monthly` object after the `for` loop of `btcHistory`. -/
def monthlyOf (pts : List CoinCapPt) : List (String × Pt) :=
  pts.foldl (fun acc p => upsert (moKey p) (convPt p) acc) []

/-- `btcHistory()` (CoinCap revision): groups the daily points by month,
keeps the point written last for each month, sorts the collected values
ascending by date and keeps the last 60. -/
def btcHistory (j : Option CoinCapResp) : Option (List Pt) :=
  match j with
  | none => none
  | some r =>
    match r.data with
    | none => none
    | some pts =>
      if pts.isEmpty then none
      else some (sliceLast 60 (sortByDate ((monthlyOf pts).map Prod.snd)))

/-! ### Kraken BTC spot adapter (second revision) -/

/-- A Kraken ticker entry: the `c` array whose head is the close price. -/
structure KrakenTicker where
  c : List String
deriving DecidableEq

/-- The Kraken response: an `error` array and an optional `result` object,
modelled as an association list in key-insertion order (JavaScript object
keys are unique; `Object.keys(...)[0]` is the head key). -/
structure KrakenResp where
  error : List String
  result : Option (List (String × KrakenTicker))
deriving DecidableEq

/-- `krakenBtcSpot()`: rejects responses with a non-empty `error` array,
reads the close price of the first ticker in `result`, and returns it only
when it parses to a positive number (`close > 0 ? close : null`; the
comparison is false for `NaN`).  When `j` is `null` the same code path reads
`parseFloat(undefined) = NaN` and returns `null`. -/
def krakenBtcSpot (j : Option KrakenResp) : Option JsNum :=
  match j with
  | none => none
  | some r =>
    if r.error.length ≠ 0 then none
    else
      let close := jsParseFloatOpt
        (((r.result.getD []).head?).bind (fun kv => kv.2.c.head?))
      if close.gt0 then some close else none

/-! ### Frankfurter DXY calculator

The claims about `dxy` concern only absence, provenance and NaN-ness, never
the magnitude of the index, so the finite value of the floating-point
computation is carried symbolically as an expression tree `DExpr` while the
NaN-propagation of JavaScript arithmetic is modelled exactly for the
operations the formula performs on the inputs the theorems mention
(`Math.pow(NaN, w) = NaN` for `w ≠ 0` and `1` for `w = 0`; division and
multiplication propagate `NaN`; arithmetic on `undefined` yields `NaN`;
`Math.round(NaN) = NaN`). -/

/-- Symbolic finite value of the DXY floating-point computation. -/
inductive DExpr where
  | lit (q : ℚ) : DExpr
  | div (a b : DExpr) : DExpr
  | mul (a b : DExpr) : DExpr
  | pow (a : DExpr) (w : ℚ) : DExpr
  | round2 (a : DExpr) : DExpr
deriving DecidableEq

/-- A JavaScript number appearing in the DXY computation: `NaN` or a
non-`NaN` float carried symbolically. -/
inductive RNum where
  | nan : RNum
  | num (e : DExpr) : RNum
deriving DecidableEq

/-- Reading a destructured rate: a missing basket member is `undefined`,
which every arithmetic operation below turns into `NaN`. -/
def RNum.ofOpt : Option ℚ → RNum
  | none => .nan
  | some q => .num (.lit q)

/-- JavaScript division, as used on the operands of the formula. -/
def RNum.div : RNum → RNum → RNum
  | .num a, .num b => .num (.div a b)
  | _, _ => .nan

/-- JavaScript multiplication, as used on the operands of the formula. -/
def RNum.mul : RNum → RNum → RNum
  | .num a, .num b => .num (.mul a b)
  | _, _ => .nan

/-- `Math.pow` with a literal exponent: `Math.pow(NaN, 0) = 1`, otherwise a
`NaN` base gives `NaN`. -/
def RNum.powQ : RNum → ℚ → RNum
  | .num a, w => .num (.pow a w)
  | .nan, w => if w = 0 then .num (.lit 1) else .nan

/-- `Math.round(val * 100) / 100`. -/
def RNum.round2 : RNum → RNum
  | .num a => .num (.round2 a)
  | .nan => .nan

/-- The `rates` object of the Frankfurter response; a missing basket member
destructures to `undefined`, that is, `none`. -/
structure FxRates where
  EUR : Option ℚ
  JPY : Option ℚ
  GBP : Option ℚ
  CAD : Option ℚ
  SEK : Option ℚ
  CHF : Option ℚ
deriving DecidableEq

/-- The Frankfurter response: an optional `rates` object and a date. -/
structure FxResp where
  rates : Option FxRates
  date : String
deriving DecidableEq

/-- The `{ value, date }` object `dxy` returns. -/
structure DxyLive where
  value : RNum
  date : String
deriving DecidableEq

/-- `dxy()`: returns `null` only when the response or its `rates` object is
absent; otherwise destructures the six basket members (missing members
become `undefined`) and evaluates the fixed geometric-weighted formula
`62.57 * EURUSD^-0.576 * USDJPY^0.136 * GBPUSD^-0.119 * USDCAD^-0.091 *
USDSEK^-0.042 * USDCHF^-0.036`, rounding to two decimals. -/
def dxy (j : Option FxResp) : Option DxyLive :=
  match j with
  | none => none
  | some r =>
    match r.rates with
    | none => none
    | some rates =>
      let EURUSD := (RNum.num (.lit 1)).div (RNum.ofOpt rates.EUR)
      let USDJPY := RNum.ofOpt rates.JPY
      let GBPUSD := (RNum.num (.lit 1)).div (RNum.ofOpt rates.GBP)
      let USDCAD := RNum.ofOpt rates.CAD
      let USDSEK := RNum.ofOpt rates.SEK
      let USDCHF := RNum.ofOpt rates.CHF
      let val :=
        ((((((RNum.num (.lit (mkRat 6257 100))).mul
          (EURUSD.powQ (mkRat (-576) 1000))).mul
          (USDJPY.powQ (mkRat 136 1000))).mul
          (GBPUSD.powQ (mkRat (-119) 1000))).mul
          (USDCAD.powQ (mkRat (-91) 1000))).mul
          (USDSEK.powQ (mkRat (-42) 1000))).mul
          (USDCHF.powQ (mkRat (-36) 1000))
      some { value := val.round2, date := r.date }

/-! ### Aggregator (`main`) -/

/-- The `{ gold, silver, btc }` record returned by `getSpotPrices` in the
GoldAPI revision: three optional JSON numbers. -/
structure SpotPrices where
  gold : Option ℚ
  silver : Option ℚ
  btc : Option ℚ
deriving DecidableEq

/-- JavaScript truthiness of an optional number (`null`/`undefined` and `0`
are falsy). -/
def truthyQ : Option ℚ → Bool
  | none => false
  | some q => decide (q ≠ 0)

/-- The `goldSilver` object of the snapshot. -/
structure GoldSilver where
  gold : ℚ
  silver : ℚ
  date : String
deriving DecidableEq

/-- A snapshot field as it will be serialized: `undef` is a property whose
value is `undefined` (dropped by `JSON.stringify`), `jnull` a property whose
value is `null` (kept), `val` a present value. -/
inductive JField (α : Type) where
  | undef : JField α
  | jnull : JField α
  | val (a : α) : JField α
deriving DecidableEq

/-- The entry `JSON.stringify` writes for a field: `none` when the key is
omitted entirely (value `undefined`), `some none` for a literal `null`,
`some (some a)` for a value. -/
def JField.serializedEntry {α : Type} : JField α → Option (Option α)
  | .undef => none
  | .jnull => some none
  | .val a => some (some a)

/-- The `sources` object of the snapshot: the exact set of keys the script
writes (note there is no entry for the gold history series). -/
structure SourcesMap where
  gold : String
  btc : String
  cpi : String
  m2 : String
  hpi : String
  dxy : String
deriving DecidableEq

/-- The data object `main` assembles and writes. -/
structure Snapshot where
  fetchedAt : String
  goldSilver : JField GoldSilver
  goldHist : JField (List Pt)
  btcRaw : JField (List Pt)
  cpiRaw : JField (List Pt)
  m2Raw : JField (List Pt)
  hpiRaw : JField (List Pt)
  dxyLive : JField DxyLive
  sources : SourcesMap
deriving DecidableEq

/-- The values `main` awaits from `Promise.all` plus the two timestamps it
draws from the clock (`new Date().toISOString()` and its date part). -/
structure MainInputs where
  spot : SpotPrices
  m2Fred : Option (List Pt)
  cpiFred : Option (List Pt)
  hpiFred : Option (List Pt)
  goldHistAV : Option (List Pt)
  btcHist : Option (List Pt)
  cpiAV : Option (List Pt)
  m2AV : Option (List Pt)
  dxyLive : Option DxyLive
  fetchedAt : String
  today : String
deriving DecidableEq

/-- `(spot.gold && spot.silver) ? { gold, silver, date } : null`. -/
def goldSilverOf (spot : SpotPrices) (today : String) : JField GoldSilver :=
  match spot.gold, spot.silver with
  | some g, some s =>
    if g = 0 ∨ s = 0 then .jnull else .val { gold := g, silver := s, date := today }
  | _, _ => .jnull

/-- The `btcRaw` local of `main`: the history with the spot point spliced on
(dropping any history point dated `today` or later), a one-point series when
only the spot succeeded, or the bare history otherwise.  `0` is falsy, so a
zero spot price skips both branches. -/
def buildBtcRaw (btcHist : Option (List Pt)) (btcSpot : Option ℚ)
    (today : String) : Option (List Pt) :=
  match btcSpot with
  | some v =>
    if v = 0 then btcHist
    else
      match btcHist with
      | some hist =>
        some (hist.filter (fun r => strLtB r.date today) ++ [⟨today, .num v⟩])
      | none => some [⟨today, .num v⟩]
  | none => btcHist

/-- `x?.slice(-n)`: `undefined` (key dropped by the serializer) when `x` is
nullish, otherwise the last `n` points. -/
def sliceLastOpt (n : ℕ) : Option (List Pt) → JField (List Pt)
  | none => .undef
  | some l => .val (sliceLast n l)

/-- `goldHistAV?.slice(-300) || null`: an explicit `null` when the adapter
failed (an array, even empty, is truthy). -/
def sliceOrNull (n : ℕ) : Option (List Pt) → JField (List Pt)
  | none => .jnull
  | some l => .val (sliceLast n l)

/-- The pure data-assembly core of `main` in the GoldAPI / CoinCap revision:
the fallback chains `cpiRaw || cpiAV` and `m2Raw || m2AV`, the BTC splice,
the per-metric retention caps, and the provenance map. -/
def mainSnapshot (i : MainInputs) : Snapshot :=
  let goldSilver := goldSilverOf i.spot i.today
  let btcRaw := buildBtcRaw i.btcHist i.spot.btc i.today
  let finalCPI := i.cpiFred <|> i.cpiAV
  let finalM2 := i.m2Fred <|> i.m2AV
  { fetchedAt := i.fetchedAt
    goldSilver := goldSilver
    goldHist := sliceOrNull 300 i.goldHistAV
    btcRaw := sliceLastOpt 60 btcRaw
    cpiRaw := sliceLastOpt 80 finalCPI
    m2Raw := sliceLastOpt 80 finalM2
    hpiRaw := sliceLastOpt 80 i.hpiFred
    dxyLive :=
      match i.dxyLive with
      | none => .jnull
      | some d => .val d
    sources :=
      { gold := match goldSilver with | .val _ => "goldapi" | _ => "fallback"
        btc := if btcRaw.isSome then "coincap" else "fallback"
        cpi :=
          if i.cpiFred.isSome then "fred"
          else if i.cpiAV.isSome then "alpha_vantage" else "fallback"
        m2 :=
          if i.m2Fred.isSome then "fred"
          else if i.m2AV.isSome then "alpha_vantage" else "fallback"
        hpi := if i.hpiFred.isSome then "fred" else "fallback"
        dxy := if i.dxyLive.isSome then "frankfurter" else "fallback" } }

/-! ### NaN-propagation lemmas for the DXY arithmetic -/

@[simp] theorem RNum.mul_nan (x : RNum) : x.mul .nan = .nan := by
  cases x <;> rfl

@[simp] theorem RNum.nan_mul (x : RNum) : RNum.nan.mul x = .nan := by
  cases x <;> rfl

@[simp] theorem RNum.div_nan (x : RNum) : x.div .nan = .nan := by
  cases x <;> rfl

@[simp] theorem RNum.round2_nan : RNum.nan.round2 = .nan := rfl

@[simp] theorem RNum.ofOpt_none : RNum.ofOpt none = .nan := rfl

theorem RNum.powQ_nan (w : ℚ) (h : ¬ w = 0) : RNum.nan.powQ w = .nan := by
  simp [RNum.powQ, h]

/-! ### C1 — FX basket completeness -/

/-- C1, counterexample.  The claim says that an FX response whose rate
mapping is missing a basket member (here EUR) makes the adapter return
absent and the Snapshot omit the index with provenance `"fallback"`.  In
fact `dxy` only checks that the `rates` object exists: a missing member
destructures to `undefined`, the formula evaluates to `NaN`, the adapter
returns a present `{ value: NaN, date }` object, and the provenance records
`"frankfurter"`. -/
theorem C1_counterexample :
    dxy (some ⟨some ⟨none, some 150, some (mkRat 79 100), some (mkRat 136 100),
        some (mkRat 21 2), some (mkRat 22 25)⟩, "2025-02-07"⟩) =
      some ⟨RNum.nan, "2025-02-07"⟩ ∧
    (mainSnapshot ⟨⟨none, none, none⟩, none, none, none, none, none, none, none,
        dxy (some ⟨some ⟨none, some 150, some (mkRat 79 100), some (mkRat 136 100),
          some (mkRat 21 2), some (mkRat 22 25)⟩, "2025-02-07"⟩),
        "2025-02-07T12:00:00Z", "2025-02-07"⟩).sources.dxy = "frankfurter" := by
  decide

/-- C1, amended.  `dxy` returns absent only when the response or its
`rates` object is missing entirely.  When `rates` is present but missing a
basket member, the adapter returns a present result whose value is `NaN`,
and any run using that result records provenance `"frankfurter"` for the
index instead of the no-provider sentinel. -/
theorem C1_amended (resp : FxResp) (rates : FxRates)
    (hr : resp.rates = some rates)
    (hmiss : rates.EUR = none ∨ rates.JPY = none ∨ rates.GBP = none ∨
      rates.CAD = none ∨ rates.SEK = none ∨ rates.CHF = none) :
    dxy (some resp) = some { value := RNum.nan, date := resp.date } ∧
    ∀ i : MainInputs, i.dxyLive = dxy (some resp) →
      (mainSnapshot i).sources.dxy = "frankfurter" := by
  have hval : dxy (some resp) = some { value := RNum.nan, date := resp.date } := by
    rcases hmiss with h | h | h | h | h | h
    · simp only [dxy, hr, h, RNum.ofOpt]
      rw [show ((RNum.num (.lit 1)).div RNum.nan).powQ (mkRat (-576) 1000) = RNum.nan by
        rw [RNum.div_nan]; exact RNum.powQ_nan _ (by decide)]
      simp only [RNum.mul_nan, RNum.nan_mul, RNum.round2_nan]
    · simp only [dxy, hr, h, RNum.ofOpt]
      rw [show RNum.nan.powQ (mkRat 136 1000) = RNum.nan from RNum.powQ_nan _ (by decide)]
      simp only [RNum.mul_nan, RNum.nan_mul, RNum.round2_nan]
    · simp only [dxy, hr, h, RNum.ofOpt]
      rw [show ((RNum.num (.lit 1)).div RNum.nan).powQ (mkRat (-119) 1000) = RNum.nan by
        rw [RNum.div_nan]; exact RNum.powQ_nan _ (by decide)]
      simp only [RNum.mul_nan, RNum.nan_mul, RNum.round2_nan]
    · simp only [dxy, hr, h, RNum.ofOpt]
      rw [show RNum.nan.powQ (mkRat (-91) 1000) = RNum.nan from RNum.powQ_nan _ (by decide)]
      simp only [RNum.mul_nan, RNum.nan_mul, RNum.round2_nan]
    · simp only [dxy, hr, h, RNum.ofOpt]
      rw [show RNum.nan.powQ (mkRat (-42) 1000) = RNum.nan from RNum.powQ_nan _ (by decide)]
      simp only [RNum.mul_nan, RNum.nan_mul, RNum.round2_nan]
    · simp only [dxy, hr, h, RNum.ofOpt]
      rw [show RNum.nan.powQ (mkRat (-36) 1000) = RNum.nan from RNum.powQ_nan _ (by decide)]
      simp only [RNum.mul_nan, RNum.nan_mul, RNum.round2_nan]
  refine ⟨hval, ?_⟩
  intro i hi
  rw [hval] at hi
  simp [mainSnapshot, hi]

/-- C1, witness for the amended theorem: a concrete response missing only
the SEK rate. -/
theorem C1_witness :
    dxy (some ⟨some ⟨some (mkRat 23 25), some 150, some (mkRat 79 100), some (mkRat 136 100),
        none, some (mkRat 22 25)⟩, "2025-02-07"⟩) =
      some { value := RNum.nan, date := "2025-02-07" } := by
  have h := C1_amended
    ⟨some ⟨some (mkRat 23 25), some 150, some (mkRat 79 100), some (mkRat 136 100),
      none, some (mkRat 22 25)⟩, "2025-02-07"⟩
    ⟨some (mkRat 23 25), some 150, some (mkRat 79 100), some (mkRat 136 100), none, some (mkRat 22 25)⟩
    rfl (Or.inr (Or.inr (Or.inr (Or.inr (Or.inl rfl)))))
  exact h.1

/-! ### C7 — spot-price adapter validation -/

/-- C7, counterexample.  The claim says every spot adapter returns absent
unless the price field parses to a positive number, never returning zero.
`goldApiSpot` is `j?.price ?? null`: a response with `price: 0` is passed
through as `0`. -/
theorem C7_counterexample :
    goldApiSpot (some ⟨some 0⟩) = some 0 := by
  decide

/-- C7, amended.  The Kraken BTC spot adapter does satisfy the property:
whenever it returns a value, that value is a finite positive number.  The
GoldAPI spot adapter (gold, silver and bitcoin in the GoldAPI revision)
performs no validation and returns the `price` field whenever the field is
present, as the counterexample shows. -/
theorem C7_amended (j : Option KrakenResp) (v : JsNum)
    (h : krakenBtcSpot j = some v) :
    ∃ q : ℚ, v = .num q ∧ 0 < q := by
  match j with
  | none => cases h
  | some r =>
    simp only [krakenBtcSpot] at h
    split at h
    · cases h
    · split at h
      · rename_i hgt
        have hv : v = jsParseFloatOpt
            (((r.result.getD []).head?).bind (fun kv => kv.2.c.head?)) :=
          ((Option.some.injEq _ _).mp h).symm
        cases hq : jsParseFloatOpt
            (((r.result.getD []).head?).bind (fun kv => kv.2.c.head?)) with
        | nan =>
          rw [hq] at hgt
          simp [JsNum.gt0] at hgt
        | num q =>
          rw [hq] at hv hgt
          exact ⟨q, hv, by simpa [JsNum.gt0] using hgt⟩
      · cases h

/-- C7, witness: a well-formed Kraken ticker response with a positive close
price. -/
theorem C7_witness :
    ∃ q : ℚ, JsNum.num (mkRat 131 20) = JsNum.num q ∧ 0 < q := by
  have h := C7_amended
    (some ⟨[], some [("XXBTZUSD", ⟨["6.55", "1"]⟩)]⟩) (JsNum.num (mkRat 131 20))
    (by decide)
  exact h

/-! ### C8 — HTTP fetch wrapper -/

/-- C8, confirmed.  `get` returns the decoded body exactly on a 2xx
response with a well-formed body free of soft-failure markers, and returns
absent in every other case (network failure, timeout, non-2xx status,
malformed body, rate-limit note, error envelope); being a total function
into `Option`, it never raises to its caller. -/
theorem C8_get {α : Type} (r : FetchCase α) :
    (∀ (s : ℕ) (j : Body α), r = .httpResponse s (some j) → statusOk s = true →
      j.note = false → j.information = false → j.errorMessage = false →
      get r = some j) ∧
    (∀ j : Body α, get r = some j →
      ∃ s : ℕ, r = .httpResponse s (some j) ∧ statusOk s = true ∧
        j.note = false ∧ j.information = false ∧ j.errorMessage = false) := by
  constructor
  · rintro s j rfl hs hn hi he
    simp [get, hs, hn, hi, he]
  · intro j h
    match r with
    | .netError => cases h
    | .timedOut => cases h
    | .httpResponse s b =>
      simp only [get] at h
      split at h
      · cases h
      · rename_i hs
        split at h
        · cases h
        · rename_i j0
          split at h
          · cases h
          · rename_i hni
            split at h
            · cases h
            · rename_i hee
              have hj : j0 = j := (Option.some.injEq _ _).mp h
              subst hj
              refine ⟨s, rfl, ?_, ?_, ?_, ?_⟩
              · simpa using hs
              · simpa using (Bool.or_eq_false_iff.mp (by simpa using hni)).1
              · simpa using (Bool.or_eq_false_iff.mp (by simpa using hni)).2
              · simpa using hee

/-- C8, witness: a 200 response with a clean body is returned as-is. -/
theorem C8_witness :
    get (FetchCase.httpResponse 200 (some ⟨false, false, false, (0 : ℕ)⟩)) =
      some ⟨false, false, false, 0⟩ := by
  have h := C8_get (FetchCase.httpResponse 200 (some ⟨false, false, false, (0 : ℕ)⟩))
  exact h.1 200 ⟨false, false, false, 0⟩ rfl (by decide) rfl rfl rfl

/-! ### C2 — total absence -/

/-- C2, counterexample.  With every adapter absent, the claim says the
written document contains `null` for each metric.  For `cpiRaw` (and
likewise `btcRaw`, `m2Raw`, `hpiRaw`) the script writes `finalCPI?.slice(-80)`,
which is `undefined`, not `null`, so `JSON.stringify` omits the key from the
document entirely; only the provenance entry `"fallback"` is as claimed. -/
theorem C2_counterexample :
    (mainSnapshot ⟨⟨none, none, none⟩, none, none, none, none, none, none, none,
      none, "T", "D"⟩).cpiRaw = JField.undef ∧
    (mainSnapshot ⟨⟨none, none, none⟩, none, none, none, none, none, none, none,
      none, "T", "D"⟩).cpiRaw ≠ JField.jnull ∧
    JField.serializedEntry (mainSnapshot ⟨⟨none, none, none⟩, none, none, none,
      none, none, none, none, none, "T", "D"⟩).cpiRaw = none ∧
    (mainSnapshot ⟨⟨none, none, none⟩, none, none, none, none, none, none, none,
      none, "T", "D"⟩).sources.cpi = "fallback" := by
  decide

/-- C2, amended.  When all candidates for a metric are absent the sources
map records `"fallback"`, but the written value differs by metric:
`goldSilver`, `goldHist` and `dxyLive` are written as `null`, while
`btcRaw`, `cpiRaw`, `m2Raw` and `hpiRaw` are `undefined`, so their keys are
dropped from the serialized document; the sources map, which has entries
only for gold, btc, cpi, m2, hpi and dxy (none for the gold history), never
fabricates a provider. -/
theorem C2_amended (i : MainInputs) :
    (i.spot.gold = none → i.spot.silver = none →
      (mainSnapshot i).goldSilver = JField.jnull ∧
      JField.serializedEntry (mainSnapshot i).goldSilver = some none ∧
      (mainSnapshot i).sources.gold = "fallback") ∧
    (i.btcHist = none → i.spot.btc = none →
      (mainSnapshot i).btcRaw = JField.undef ∧
      JField.serializedEntry (mainSnapshot i).btcRaw = none ∧
      (mainSnapshot i).sources.btc = "fallback") ∧
    (i.goldHistAV = none →
      (mainSnapshot i).goldHist = JField.jnull ∧
      JField.serializedEntry (mainSnapshot i).goldHist = some none) ∧
    (i.cpiFred = none → i.cpiAV = none →
      (mainSnapshot i).cpiRaw = JField.undef ∧
      JField.serializedEntry (mainSnapshot i).cpiRaw = none ∧
      (mainSnapshot i).sources.cpi = "fallback") ∧
    (i.m2Fred = none → i.m2AV = none →
      (mainSnapshot i).m2Raw = JField.undef ∧
      JField.serializedEntry (mainSnapshot i).m2Raw = none ∧
      (mainSnapshot i).sources.m2 = "fallback") ∧
    (i.hpiFred = none →
      (mainSnapshot i).hpiRaw = JField.undef ∧
      JField.serializedEntry (mainSnapshot i).hpiRaw = none ∧
      (mainSnapshot i).sources.hpi = "fallback") ∧
    (i.dxyLive = none →
      (mainSnapshot i).dxyLive = JField.jnull ∧
      JField.serializedEntry (mainSnapshot i).dxyLive = some none ∧
      (mainSnapshot i).sources.dxy = "fallback") := by
  refine ⟨?_, ?_, ?_, ?_, ?_, ?_, ?_⟩
  · intro h1 h2
    refine ⟨?_, ?_, ?_⟩ <;>
      simp [mainSnapshot, goldSilverOf, JField.serializedEntry, h1, h2]
  · intro h1 h2
    refine ⟨?_, ?_, ?_⟩ <;>
      simp [mainSnapshot, buildBtcRaw, sliceLastOpt, JField.serializedEntry, h1, h2]
  · intro h1
    constructor <;> simp [mainSnapshot, sliceOrNull, JField.serializedEntry, h1]
  · intro h1 h2
    refine ⟨?_, ?_, ?_⟩ <;>
      simp [mainSnapshot, sliceLastOpt, JField.serializedEntry, h1, h2]
  · intro h1 h2
    refine ⟨?_, ?_, ?_⟩ <;>
      simp [mainSnapshot, sliceLastOpt, JField.serializedEntry, h1, h2]
  · intro h1
    refine ⟨?_, ?_, ?_⟩ <;>
      simp [mainSnapshot, sliceLastOpt, JField.serializedEntry, h1]
  · intro h1
    refine ⟨?_, ?_, ?_⟩ <;>
      simp [mainSnapshot, JField.serializedEntry, h1]

/-- C2, witness for the amended theorem at an everything-absent run. -/
theorem C2_witness :
    (mainSnapshot ⟨⟨none, none, none⟩, none, none, none, none, none, none, none,
      none, "2025-02-07T12:00:00Z", "2025-02-07"⟩).goldSilver = JField.jnull ∧
    (mainSnapshot ⟨⟨none, none, none⟩, none, none, none, none, none, none, none,
      none, "2025-02-07T12:00:00Z", "2025-02-07"⟩).cpiRaw = JField.undef ∧
    (mainSnapshot ⟨⟨none, none, none⟩, none, none, none, none, none, none, none,
      none, "2025-02-07T12:00:00Z", "2025-02-07"⟩).sources.cpi = "fallback" := by
  have h := C2_amended ⟨⟨none, none, none⟩, none, none, none, none, none, none,
    none, none, "2025-02-07T12:00:00Z", "2025-02-07"⟩
  exact ⟨(h.1 rfl rfl).1, (h.2.2.2.1 rfl rfl).1, (h.2.2.2.1 rfl rfl).2.2⟩

/-! ### C4 — BTC splice -/

/-- C4, confirmed.  For a date-ascending history whose last point is dated
strictly before the current date `d` and a non-zero spot value, the spliced
series is exactly the history followed by the spot point: everything before
`d` is unchanged and `d` carries the spot value as its only point. -/
theorem C4_splice (hist : List Pt) (lp : Pt) (v : ℚ) (d : String)
    (hsort : hist.Pairwise dateLT)
    (hlast : hist.getLast? = some lp)
    (hlt : strLt lp.date d)
    (hv : v ≠ 0) :
    buildBtcRaw (some hist) (some v) d =
      some (hist ++ [({ date := d, value := JsNum.num v } : Pt)]) ∧
    (hist ++ [({ date := d, value := JsNum.num v } : Pt)]).filter
      (fun p => p.date == d) = [({ date := d, value := JsNum.num v } : Pt)] := by
  have hall : ∀ p ∈ hist, strLt p.date d := by
    intro p hp
    rcases pairwise_getLast_max hsort hlast p hp with rfl | hpl
    · exact hlt
    · exact strLt_trans hpl hlt
  constructor
  · simp only [buildBtcRaw, if_neg hv]
    have hf : hist.filter (fun r => strLtB r.date d) = hist :=
      List.filter_eq_self.mpr (fun a ha => hall a ha)
    rw [hf]
  · rw [List.filter_append]
    have h1 : hist.filter (fun p => p.date == d) = [] :=
      List.filter_eq_nil_iff.mpr (fun a ha hbeq =>
        ne_of_strLt (hall a ha) (by simpa using hbeq))
    rw [h1]
    simp

/-- C4, witness: a one-point history dated the day before the spot. -/
theorem C4_witness :
    buildBtcRaw (some [⟨"2025-01-31", JsNum.num 50000⟩]) (some 60000)
      "2025-02-01" =
      some [({ date := "2025-01-31", value := JsNum.num 50000 } : Pt),
        ({ date := "2025-02-01", value := JsNum.num 60000 } : Pt)] ∧
    ([({ date := "2025-01-31", value := JsNum.num 50000 } : Pt),
      ({ date := "2025-02-01", value := JsNum.num 60000 } : Pt)].filter
      (fun p => p.date == "2025-02-01")) =
      [({ date := "2025-02-01", value := JsNum.num 60000 } : Pt)] := by
  have h := C4_splice [⟨"2025-01-31", JsNum.num 50000⟩]
    ⟨"2025-01-31", JsNum.num 50000⟩ 60000 "2025-02-01"
    (by decide) (by decide) (by decide) (by decide)
  simpa using h

/-! ### C5 — two-candidate fallback for CPI and M2 -/

/-- C5, confirmed.  When the FRED adapter is absent and the Alpha Vantage
adapter returns a series, the snapshot publishes the Alpha Vantage series
capped to the 80-point retention window and records `"alpha_vantage"`. -/
theorem C5_fallback (i : MainInputs) (s t : List Pt)
    (hcf : i.cpiFred = none) (hca : i.cpiAV = some s)
    (hmf : i.m2Fred = none) (hma : i.m2AV = some t) :
    (mainSnapshot i).cpiRaw = JField.val (sliceLast 80 s) ∧
    (mainSnapshot i).sources.cpi = "alpha_vantage" ∧
    (mainSnapshot i).m2Raw = JField.val (sliceLast 80 t) ∧
    (mainSnapshot i).sources.m2 = "alpha_vantage" := by
  refine ⟨?_, ?_, ?_, ?_⟩ <;>
    simp [mainSnapshot, sliceLastOpt, hcf, hca, hmf, hma]

/-- C5, witness: a concrete run in which FRED failed and Alpha Vantage
supplied one point for each of CPI and M2. -/
theorem C5_witness :
    (mainSnapshot ⟨⟨none, none, none⟩, none, none, none, none, none,
      some [⟨"2020-01-01", JsNum.num 100⟩], some [⟨"2020-01-01", JsNum.num 200⟩],
      none, "2025-02-07T12:00:00Z", "2025-02-07"⟩).cpiRaw =
      JField.val (sliceLast 80 [⟨"2020-01-01", JsNum.num 100⟩]) ∧
    (mainSnapshot ⟨⟨none, none, none⟩, none, none, none, none, none,
      some [⟨"2020-01-01", JsNum.num 100⟩], some [⟨"2020-01-01", JsNum.num 200⟩],
      none, "2025-02-07T12:00:00Z", "2025-02-07"⟩).sources.cpi =
      "alpha_vantage" ∧
    (mainSnapshot ⟨⟨none, none, none⟩, none, none, none, none, none,
      some [⟨"2020-01-01", JsNum.num 100⟩], some [⟨"2020-01-01", JsNum.num 200⟩],
      none, "2025-02-07T12:00:00Z", "2025-02-07"⟩).sources.m2 =
      "alpha_vantage" := by
  have h := C5_fallback ⟨⟨none, none, none⟩, none, none, none, none, none,
    some [⟨"2020-01-01", JsNum.num 100⟩], some [⟨"2020-01-01", JsNum.num 200⟩],
    none, "2025-02-07T12:00:00Z", "2025-02-07"⟩
    [⟨"2020-01-01", JsNum.num 100⟩] [⟨"2020-01-01", JsNum.num 200⟩]
    rfl rfl rfl rfl
  exact ⟨h.1, h.2.1, h.2.2.2⟩

/-! ### C10 — BTC spot without history -/

/-- C10, confirmed.  When the history adapter is absent but the spot
adapter returned a (truthy) value, the published `btcRaw` is the one-point
series carrying the spot value at the current date, and the provenance for
btc records the history provider `"coincap"` even though no history
provider succeeded. -/
theorem C10_btc_spot_only (i : MainInputs) (v : ℚ)
    (hh : i.btcHist = none) (hb : i.spot.btc = some v) (hv : v ≠ 0) :
    (mainSnapshot i).btcRaw = JField.val [⟨i.today, JsNum.num v⟩] ∧
    (mainSnapshot i).sources.btc = "coincap" := by
  constructor <;>
    simp [mainSnapshot, buildBtcRaw, sliceLastOpt, sliceLast, hh, hb, hv]

/-- C10, witness: spot-only BTC run. -/
theorem C10_witness :
    (mainSnapshot ⟨⟨none, none, some 70000⟩, none, none, none, none, none, none,
      none, none, "2025-02-07T12:00:00Z", "2025-02-07"⟩).btcRaw =
      JField.val [⟨"2025-02-07", JsNum.num 70000⟩] ∧
    (mainSnapshot ⟨⟨none, none, some 70000⟩, none, none, none, none, none, none,
      none, none, "2025-02-07T12:00:00Z", "2025-02-07"⟩).sources.btc =
      "coincap" := by
  exact C10_btc_spot_only ⟨⟨none, none, some 70000⟩, none, none, none, none,
    none, none, none, none, "2025-02-07T12:00:00Z", "2025-02-07"⟩ 70000
    rfl rfl (by norm_num)

/-! ### Structure of the `monthly` object built by `btcHistory` -/

theorem upsert_keys_of_mem (k : String) (v : Pt) :
    ∀ l : List (String × Pt), k ∈ l.map Prod.fst →
      (upsert k v l).map Prod.fst = l.map Prod.fst
  | [], h => by simp at h
  | (k1, w) :: rest, h => by
    by_cases hk : k1 = k
    · simp [upsert, hk]
    · have h2 : k ∈ rest.map Prod.fst := by
        rw [List.map_cons] at h
        rcases List.mem_cons.mp h with h3 | h3
        · exact absurd h3.symm hk
        · exact h3
      simp [upsert, hk, upsert_keys_of_mem k v rest h2]

theorem upsert_keys_of_not_mem (k : String) (v : Pt) :
    ∀ l : List (String × Pt), k ∉ l.map Prod.fst →
      (upsert k v l).map Prod.fst = l.map Prod.fst ++ [k]
  | [], _ => rfl
  | (k1, w) :: rest, h => by
    have hk : ¬ k1 = k := by
      intro hh; exact h (by simp [hh])
    have h2 : k ∉ rest.map Prod.fst := fun hh => h (by simp [hh])
    simp [upsert, hk, upsert_keys_of_not_mem k v rest h2]

theorem upsert_keys_nodup (k : String) (v : Pt) (l : List (String × Pt))
    (h : (l.map Prod.fst).Nodup) : ((upsert k v l).map Prod.fst).Nodup := by
  by_cases hm : k ∈ l.map Prod.fst
  · rw [upsert_keys_of_mem k v l hm]; exact h
  · rw [upsert_keys_of_not_mem k v l hm]
    simp [List.nodup_append, h, hm]

theorem mem_upsert (k : String) (v : Pt) :
    ∀ l : List (String × Pt), (l.map Prod.fst).Nodup →
      ∀ e : String × Pt, e ∈ upsert k v l ↔ e = (k, v) ∨ (e ∈ l ∧ e.1 ≠ k)
  | [], _, e => by simp [upsert]
  | (k1, w) :: rest, hnd, e => by
    rw [List.map_cons, List.nodup_cons] at hnd
    by_cases hk : k1 = k
    · simp only [upsert, if_pos hk]
      constructor
      · intro he
        rcases List.mem_cons.mp he with rfl | he2
        · exact Or.inl (by rw [hk])
        · right
          refine ⟨List.mem_cons_of_mem _ he2, ?_⟩
          intro h1
          apply hnd.1
          have hm : e.1 ∈ rest.map Prod.fst := List.mem_map_of_mem Prod.fst he2
          rwa [h1, ← hk] at hm
      · intro he
        rcases he with rfl | ⟨hmem, hne⟩
        · simp [hk]
        · rcases List.mem_cons.mp hmem with rfl | h2
          · exact absurd hk (by simpa using hne)
          · exact List.mem_cons_of_mem _ h2
    · simp only [upsert, if_neg hk]
      constructor
      · intro he
        rcases List.mem_cons.mp he with rfl | he2
        · exact Or.inr ⟨List.mem_cons_self _ _, hk⟩
        · rcases (mem_upsert k v rest hnd.2 e).mp he2 with h3 | ⟨h3, h4⟩
          · exact Or.inl h3
          · exact Or.inr ⟨List.mem_cons_of_mem _ h3, h4⟩
      · intro he
        rcases he with rfl | ⟨hmem, hne⟩
        · exact List.mem_cons_of_mem _ ((mem_upsert k v rest hnd.2 _).mpr (Or.inl rfl))
        · rcases List.mem_cons.mp hmem with rfl | h2
          · exact List.mem_cons_self _ _
          · exact List.mem_cons_of_mem _
              ((mem_upsert k v rest hnd.2 e).mpr (Or.inr ⟨h2, hne⟩))

/-- The shape of the `monthly` object after the grouping loop: its keys are
exactly the distinct months of the input, without duplicates, and the entry
of a month holds `convPt` of the input point written last for that month. -/
theorem monthlyOf_inv (pts : List CoinCapPt) :
    ((monthlyOf pts).map Prod.fst).Nodup ∧
    (∀ k, k ∈ (monthlyOf pts).map Prod.fst ↔ ∃ p ∈ pts, moKey p = k) ∧
    (∀ e ∈ monthlyOf pts,
      ∃ q, (pts.filter (fun x => moKey x == e.1)).getLast? = some q ∧
        e.2 = convPt q ∧ moKey q = e.1) := by
  induction pts using List.reverseRecOn with
  | nil => refine ⟨List.nodup_nil, ?_, ?_⟩ <;> simp [monthlyOf]
  | append_singleton pts p ih =>
    have hstep : monthlyOf (pts ++ [p]) =
        upsert (moKey p) (convPt p) (monthlyOf pts) := by
      simp [monthlyOf, List.foldl_append]
    obtain ⟨ihn, ihk, ihe⟩ := ih
    refine ⟨?_, ?_, ?_⟩
    · rw [hstep]; exact upsert_keys_nodup _ _ _ ihn
    · intro k
      rw [hstep]
      by_cases hm : moKey p = k
      · constructor
        · intro _
          exact ⟨p, by simp, hm⟩
        · intro _
          by_cases h2 : moKey p ∈ (monthlyOf pts).map Prod.fst
          · rw [upsert_keys_of_mem _ _ _ h2]
            rw [← hm]
            exact h2
          · rw [upsert_keys_of_not_mem _ _ _ h2]
            simp [hm]
      · constructor
        · intro hk2
          have hold : k ∈ (monthlyOf pts).map Prod.fst := by
            by_cases h2 : moKey p ∈ (monthlyOf pts).map Prod.fst
            · rwa [upsert_keys_of_mem _ _ _ h2] at hk2
            · rw [upsert_keys_of_not_mem _ _ _ h2] at hk2
              rcases List.mem_append.mp hk2 with h3 | h3
              · exact h3
              · exact absurd (List.mem_singleton.mp h3).symm hm
          rcases (ihk k).mp hold with ⟨q, hq1, hq2⟩
          exact ⟨q, List.mem_append.mpr (Or.inl hq1), hq2⟩
        · rintro ⟨q, hq1, hq2⟩
          rcases List.mem_append.mp hq1 with h3 | h3
          · have hold := (ihk k).mpr ⟨q, h3, hq2⟩
            by_cases h2 : moKey p ∈ (monthlyOf pts).map Prod.fst
            · rwa [upsert_keys_of_mem _ _ _ h2]
            · rw [upsert_keys_of_not_mem _ _ _ h2]
              exact List.mem_append.mpr (Or.inl hold)
          · rcases List.mem_singleton.mp h3 with rfl
            exact absurd hq2 hm
    · intro e he
      rw [hstep] at he
      rcases (mem_upsert _ _ _ ihn e).mp he with rfl | ⟨hmem, hne⟩
      · refine ⟨p, ?_, rfl, rfl⟩
        rw [List.filter_append]
        have h1 : [p].filter (fun x => moKey x == moKey p) = [p] := by simp
        rw [h1, List.getLast?_concat]
      · obtain ⟨q, hq1, hq2, hq3⟩ := ihe e hmem
        refine ⟨q, ?_, hq2, hq3⟩
        rw [List.filter_append]
        have h1 : [p].filter (fun x => moKey x == e.1) = [] := by
          simp [hne.symm]
        rw [h1, List.append_nil]
        exact hq1

/-- The month of every stored point equals its key. -/
theorem monthlyOf_months_eq_keys (pts : List CoinCapPt) :
    ((monthlyOf pts).map Prod.snd).map (fun p => strTake 7 p.date) =
      (monthlyOf pts).map Prod.fst := by
  rw [List.map_map]
  refine List.map_congr_left ?_
  intro e hee
  obtain ⟨q, _, hq2, hq3⟩ := (monthlyOf_inv pts).2.2 e hee
  show strTake 7 e.2.date = e.1
  rw [hq2]
  show strTake 7 (strTake 10 q.date) = e.1
  rw [strTake_strTake]
  exact hq3

/-- The stored points have pairwise distinct dates. -/
theorem monthlyOf_dates_nodup (pts : List CoinCapPt) :
    (((monthlyOf pts).map Prod.snd).map Pt.date).Nodup := by
  have hkeys := (monthlyOf_inv pts).1
  have hmn : (((monthlyOf pts).map Prod.snd).map
      (fun p => strTake 7 p.date)).Nodup := by
    rw [monthlyOf_months_eq_keys]; exact hkeys
  have hcomp : ((monthlyOf pts).map Prod.snd).map (fun p => strTake 7 p.date) =
      (((monthlyOf pts).map Prod.snd).map Pt.date).map (strTake 7) := by
    simp only [List.map_map]
    rfl
  rw [hcomp] at hmn
  exact hmn.of_map

/-- Every list `btcHistory` emits is strictly ascending by date. -/
theorem btcHistory_sorted (j : Option CoinCapResp) (out : List Pt)
    (h : btcHistory j = some out) : out.Pairwise dateLT := by
  match j with
  | none => cases h
  | some r =>
    simp only [btcHistory] at h
    split at h
    · cases h
    · rename_i pts heq
      split at h
      · cases h
      · have ho : out = sliceLast 60 (sortByDate ((monthlyOf pts).map Prod.snd)) :=
          ((Option.some.injEq _ _).mp h).symm
        rw [ho]
        exact List.Pairwise.sublist (sliceLast_sublist _ _)
          (sorted_sortByDate_of_nodup _ (monthlyOf_dates_nodup pts))

theorem mem_of_getLast_eq {α : Type} {l : List α} {y : α}
    (h : l.getLast? = some y) : y ∈ l := by
  rcases List.getLast?_eq_some_iff.mp h with ⟨l2, rfl⟩
  exact List.mem_append.mpr (Or.inr (List.mem_singleton_self y))

/-! ### C3 — emitted series ascending with no duplicate dates -/

/-- C3, counterexample.  The Alpha Vantage adapter performs no
deduplication: a response whose `data` array repeats a date yields a series
with two points on the same date, which is not strictly ascending.  (The
comparator `a.date < b.date ? -1 : 1` never reports a tie, so both rows
survive the sort.) -/
theorem C3_counterexample :
    avCommodity (some ⟨some [⟨"2020-01-31", "1"⟩, ⟨"2020-01-31", "2"⟩]⟩) =
      some [({ date := "2020-01-31", value := JsNum.num 2 } : Pt),
        ({ date := "2020-01-31", value := JsNum.num 1 } : Pt)] ∧
    ¬ List.Pairwise dateLT [({ date := "2020-01-31", value := JsNum.num 2 } : Pt),
        ({ date := "2020-01-31", value := JsNum.num 1 } : Pt)] := by
  decide

/-- C3, amended.  Each adapter emits a strictly date-ascending,
duplicate-free series under the corresponding well-formedness condition on
the provider response: for `avCommodity`, that the response dates are
pairwise distinct; for `fredSeries`, that the retained observations are
strictly descending by date (the order the request asks the provider for);
`btcHistory` needs no condition, since grouping by month already
deduplicates.  Without those conditions the adapters pass duplicates or
disorder through, as the counterexample shows. -/
theorem C3_amended :
    (∀ (rows : List AVRow) (out : List Pt),
        avCommodity (some ⟨some rows⟩) = some out →
        (rows.map AVRow.date).Nodup →
        out.Pairwise dateLT) ∧
    (∀ (obs : List FredObs) (out : List Pt),
        fredSeries (some ⟨some obs⟩) = some out →
        ((obs.filter (fun o => o.value != ".")).map FredObs.date).Pairwise
          (fun a b => strLt b a) →
        out.Pairwise dateLT) ∧
    (∀ (j : Option CoinCapResp) (out : List Pt),
        btcHistory j = some out → out.Pairwise dateLT) := by
  refine ⟨?_, ?_, ?_⟩
  · intro rows out h hnd
    have ho : out = sortByDate ((rows.map (fun rw =>
        ({ date := rw.date, value := jsParseFloat rw.value } : Pt))).filter
        (fun p => !p.value.isNaN && p.value.gt0)) :=
      ((Option.some.injEq _ _).mp (by simpa [avCommodity] using h)).symm
    rw [ho]
    apply sorted_sortByDate_of_nodup
    have h1 : (rows.map (fun rw =>
        ({ date := rw.date, value := jsParseFloat rw.value } : Pt))).map Pt.date =
        rows.map AVRow.date := by
      rw [List.map_map]; rfl
    have h2 : (((rows.map (fun rw =>
        ({ date := rw.date, value := jsParseFloat rw.value } : Pt))).filter
        (fun p => !p.value.isNaN && p.value.gt0)).map Pt.date).Sublist
        ((rows.map (fun rw =>
          ({ date := rw.date, value := jsParseFloat rw.value } : Pt))).map Pt.date) :=
      (List.filter_sublist _).map Pt.date
    rw [h1] at h2
    exact List.Nodup.sublist h2 hnd
  · intro obs out h hdesc
    have ho : out = ((obs.filter (fun o => o.value != ".")).map
        (fun o => ({ date := o.date, value := jsParseFloat o.value } : Pt))).reverse :=
      ((Option.some.injEq _ _).mp (by simpa [fredSeries] using h)).symm
    rw [ho]
    rw [List.pairwise_reverse, List.pairwise_map]
    rw [List.pairwise_map] at hdesc
    exact hdesc
  · exact fun j out h => btcHistory_sorted j out h

/-- C3, witness: the downsampler on a two-month daily input. -/
theorem C3_witness :
    List.Pairwise dateLT [({ date := "2020-01-03", value := jsParseFloat "1" } : Pt),
      ({ date := "2020-02-01", value := jsParseFloat "2" } : Pt)] := by
  exact C3_amended.2.2 (some ⟨some [⟨"2020-01-03T00:00:00.000Z", "1"⟩,
    ⟨"2020-02-01T00:00:00.000Z", "2"⟩]⟩)
    [⟨"2020-01-03", jsParseFloat "1"⟩, ⟨"2020-02-01", jsParseFloat "2"⟩]
    (by decide)

/-! ### C9 — finiteness of emitted values -/

/-- C9, counterexample.  `fredSeries` drops only the literal `"."` sentinel;
any other non-numeric observation value is handed to `parseFloat` and the
resulting `NaN` enters the emitted series as a point value. -/
theorem C9_counterexample :
    fredSeries (some ⟨some [⟨"2020-01-01", "abc"⟩]⟩) =
      some [({ date := "2020-01-01", value := JsNum.nan } : Pt)] := by
  decide

/-- C9, amended.  `avCommodity` filters non-numeric and non-positive
values, so every point it emits carries a finite positive value.
`fredSeries` emits finite values only under the assumption that every
retained observation value parses numerically: the `"."` sentinel is
dropped, but any other non-numeric value string becomes a `NaN` point. -/
theorem C9_amended :
    (∀ (j : Option AVResp) (out : List Pt) (p : Pt),
        avCommodity j = some out → p ∈ out →
        ∃ q : ℚ, p.value = .num q ∧ 0 < q) ∧
    (∀ (obs : List FredObs) (out : List Pt) (p : Pt),
        fredSeries (some ⟨some obs⟩) = some out →
        (∀ o ∈ obs, o.value ≠ "." → (jsParseFloat o.value).isNaN = false) →
        p ∈ out → p.value.isNaN = false) := by
  constructor
  · intro j out p h hp
    match j with
    | none => cases h
    | some r =>
      simp only [avCommodity] at h
      split at h
      · cases h
      · rename_i rows heq
        have ho : out = sortByDate ((rows.map (fun rw =>
            ({ date := rw.date, value := jsParseFloat rw.value } : Pt))).filter
            (fun x => !x.value.isNaN && x.value.gt0)) :=
          ((Option.some.injEq _ _).mp h).symm
        rw [ho] at hp
        have hp2 := (sortByDate_perm _).mem_iff.mp hp
        have hpred := (List.mem_filter.mp hp2).2
        cases hv : p.value with
        | nan =>
          rw [hv] at hpred
          simp [JsNum.isNaN] at hpred
        | num q =>
          rw [hv] at hpred
          exact ⟨q, rfl, by simpa [JsNum.isNaN, JsNum.gt0] using hpred⟩
  · intro obs out p h hfin hp
    have ho : out = ((obs.filter (fun o => o.value != ".")).map
        (fun o => ({ date := o.date, value := jsParseFloat o.value } : Pt))).reverse :=
      ((Option.some.injEq _ _).mp (by simpa [fredSeries] using h)).symm
    rw [ho, List.mem_reverse] at hp
    rcases List.mem_map.mp hp with ⟨o, ho2, rfl⟩
    have hmem := List.mem_filter.mp ho2
    exact hfin o hmem.1 (by simpa using hmem.2)

/-- C9, witness: a numeric observation string produces a finite positive
point through the Alpha Vantage adapter. -/
theorem C9_witness :
    ∃ q : ℚ, jsParseFloat "2.5" = JsNum.num q ∧ 0 < q := by
  have h := C9_amended.1 (some ⟨some [⟨"2020-01", "2.5"⟩]⟩)
    [⟨"2020-01", jsParseFloat "2.5"⟩] ⟨"2020-01", jsParseFloat "2.5"⟩
    (by decide) (by decide)
  exact h

/-! ### C6 — daily-to-monthly downsampling -/

/-- C6, confirmed.  On a nonempty, strictly date-ascending daily input, the
downsampler output is the 60-point truncation (keeping the most recent
entries) of a monthly list `M` that is strictly ascending by date, has
exactly one point per distinct month of the input, and whose point for each
month is the day-truncated, parsed image of the chronologically last input
point of that month. -/
theorem C6_downsample (pts : List CoinCapPt)
    (hne : pts ≠ [])
    (hasc : pts.Pairwise (fun a b => strLt a.date b.date)) :
    ∃ M : List Pt,
      btcHistory (some ⟨some pts⟩) = some (sliceLast 60 M) ∧
      M.Pairwise dateLT ∧
      (M.map (fun p => strTake 7 p.date)).Nodup ∧
      (∀ m, m ∈ M.map (fun p => strTake 7 p.date) ↔ ∃ p ∈ pts, moKey p = m) ∧
      (∀ p ∈ M, ∃ q ∈ pts, moKey q = strTake 7 p.date ∧ p = convPt q ∧
        ∀ u ∈ pts, moKey u = moKey q → u = q ∨ strLt u.date q.date) := by
  refine ⟨sortByDate ((monthlyOf pts).map Prod.snd), ?_, ?_, ?_, ?_, ?_⟩
  · cases pts with
    | nil => exact absurd rfl hne
    | cons p0 rest => simp [btcHistory]
  · exact sorted_sortByDate_of_nodup _ (monthlyOf_dates_nodup pts)
  · have hperm : ((sortByDate ((monthlyOf pts).map Prod.snd)).map
        (fun p => strTake 7 p.date)).Perm
        (((monthlyOf pts).map Prod.snd).map (fun p => strTake 7 p.date)) :=
      (sortByDate_perm _).map _
    rw [hperm.nodup_iff, monthlyOf_months_eq_keys]
    exact (monthlyOf_inv pts).1
  · intro m
    have hperm : ((sortByDate ((monthlyOf pts).map Prod.snd)).map
        (fun p => strTake 7 p.date)).Perm
        (((monthlyOf pts).map Prod.snd).map (fun p => strTake 7 p.date)) :=
      (sortByDate_perm _).map _
    rw [hperm.mem_iff, monthlyOf_months_eq_keys]
    exact (monthlyOf_inv pts).2.1 m
  · intro p hp
    have hp2 : p ∈ (monthlyOf pts).map Prod.snd :=
      (sortByDate_perm _).mem_iff.mp hp
    rcases List.mem_map.mp hp2 with ⟨e, he, rfl⟩
    obtain ⟨q, hq1, hq2, hq3⟩ := (monthlyOf_inv pts).2.2 e he
    have hqf : q ∈ pts.filter (fun x => moKey x == e.1) := mem_of_getLast_eq hq1
    have hqp : q ∈ pts := (List.mem_filter.mp hqf).1
    refine ⟨q, hqp, ?_, hq2, ?_⟩
    · rw [hq2, show (convPt q).date = strTake 10 q.date from rfl, strTake_strTake]
      rfl
    · intro u hu hmu
      have huf : u ∈ pts.filter (fun x => moKey x == e.1) := by
        rw [List.mem_filter]
        exact ⟨hu, by simp [hmu, hq3]⟩
      have hpair : (pts.filter (fun x => moKey x == e.1)).Pairwise
          (fun a b => strLt a.date b.date) := hasc.filter _
      exact pairwise_getLast_max hpair hq1 u huf

/-- C6, witness: three daily points across two months; the downsampler
keeps the later January point and the single February point. -/
theorem C6_witness :
    ∃ M : List Pt,
      btcHistory (some ⟨some [⟨"2020-01-02T00:00:00.000Z", "1"⟩,
        ⟨"2020-01-03T00:00:00.000Z", "2"⟩,
        ⟨"2020-02-01T00:00:00.000Z", "3"⟩]⟩) = some (sliceLast 60 M) ∧
      M.Pairwise dateLT ∧
      (M.map (fun p => strTake 7 p.date)).Nodup ∧
      (∀ m, m ∈ M.map (fun p => strTake 7 p.date) ↔
        ∃ p ∈ [(⟨"2020-01-02T00:00:00.000Z", "1"⟩ : CoinCapPt),
          ⟨"2020-01-03T00:00:00.000Z", "2"⟩,
          ⟨"2020-02-01T00:00:00.000Z", "3"⟩], moKey p = m) ∧
      (∀ p ∈ M, ∃ q ∈ [(⟨"2020-01-02T00:00:00.000Z", "1"⟩ : CoinCapPt),
          ⟨"2020-01-03T00:00:00.000Z", "2"⟩,
          ⟨"2020-02-01T00:00:00.000Z", "3"⟩],
        moKey q = strTake 7 p.date ∧ p = convPt q ∧
        ∀ u ∈ [(⟨"2020-01-02T00:00:00.000Z", "1"⟩ : CoinCapPt),
          ⟨"2020-01-03T00:00:00.000Z", "2"⟩,
          ⟨"2020-02-01T00:00:00.000Z", "3"⟩],
          moKey u = moKey q → u = q ∨ strLt u.date q.date) := by
  exact C6_downsample [⟨"2020-01-02T00:00:00.000Z", "1"⟩,
    ⟨"2020-01-03T00:00:00.000Z", "2"⟩, ⟨"2020-02-01T00:00:00.000Z", "3"⟩]
    (by decide) (by decide)

end FetchData
